import Mathlib

/-!
Shallow embedding of the reviewer-assignment decision core of Reviewporter
(`src/azure/add_reviewers_service.rs` with its data model from
`src/azure/api.rs`), followed by theorems settling the specification claims.

The effectful Azure API is modelled by explicit parameters:
* `fetch : Identifier → Except ε (List TeamMember)` stands for
  `AzureTeamService::team_members`;
* `obtain_pull_request : Except ε PullRequest` stands for the result of
  `AzurePullRequestService::obtain_pull_request`;
* the result of `add_reviewers` is `Except ε (Option (List NewPullRequestReviewer))`:
  `.ok none` means the run finished without invoking
  `add_reviewers_to_pull_request`, `.ok (some l)` means that submission was
  invoked with the list `l`, and `.error e` means the run aborted with error
  `e` before any submission.
`HashSet` membership is modelled by `List` membership (the service only ever
inserts and tests membership). `usize` counters are `Nat`; `saturating_sub`
is truncated `Nat` subtraction.
-/

namespace Reviewporter

/-- Newtype `Identifier(pub String)` from `api.rs`: an opaque unique string
handle for a person. -/
abbrev Identifier := String

/-- Record `TeamMember` from `api.rs`. -/
structure TeamMember where
  id : Identifier
  name : String
  is_container : Bool
deriving DecidableEq, Repr

/-- Record `PullRequestAuthor` from `api.rs`. -/
structure PullRequestAuthor where
  id : Identifier
  name : String
deriving DecidableEq, Repr

/-- Enum `Vote` from `api.rs` (`repr(i32)`); carried but never read by the
reviewer-assignment service. -/
inductive Vote where
  | Rejected
  | WaitingForAuthor
  | NoVote
  | ApprovedWithSuggestions
  | Approved
deriving DecidableEq, Repr

/-- Record `PullRequestReviewer` from `api.rs`. -/
structure PullRequestReviewer where
  id : Identifier
  name : String
  is_required : Bool
  vote : Vote
  has_declined : Bool
deriving DecidableEq, Repr

/-- Enum `PullRequestStatus` from `api.rs`. -/
inductive PullRequestStatus where
  | Abandoned
  | Active
  | NotSet
  | All
  | Completed
deriving DecidableEq, Repr

/-- Record `PullRequest` from `api.rs`; `url` is kept in its textual form and
`creation_date` as an integer timestamp, neither is read by the service. -/
structure PullRequest where
  id : Nat
  title : String
  url : String
  created_by : PullRequestAuthor
  creation_date : Int
  reviewers : List PullRequestReviewer
  status : PullRequestStatus
deriving DecidableEq, Repr

/-- Record `NewPullRequestReviewer` from `api.rs`: one entry of the engine's
sole output, the ordered submission batch. -/
structure NewPullRequestReviewer where
  id : Identifier
  is_required : Bool
deriving DecidableEq, Repr

/-- Record `AzureTeam` from `add_reviewers_service.rs`. -/
structure AzureTeam where
  name : String
  required_reviewers_team : Option String
deriving DecidableEq, Repr

/-- Record `ReviewersConfig` from `add_reviewers_service.rs`. -/
structure ReviewersConfig where
  required_reviewers_count : Nat
  teams : List AzureTeam
deriving Repr

/-- Type `TeamMembersShuffler` from `add_reviewers_service.rs`: the injected
shuffling strategy applied once per run to the two candidate pools. -/
abbrev TeamMembersShuffler :=
  List TeamMember → List TeamMember → List TeamMember × List TeamMember

/-- Model of `itertools::Itertools::interleave` restricted to finite lists:
alternate elements of the two sequences starting with the first, and once one
sequence is exhausted yield the remainder of the other. -/
def interleave : List α → List α → List α
  | [], ys => ys
  | x :: xs, ys =>
    x :: (match ys with
          | [] => xs
          | y :: ys2 => y :: interleave xs ys2)

/-- Function `find_author_dev_team_members` (`add_reviewers_service.rs:137-150`):
scan the configured teams in order, fetching each roster; return the first
team whose roster contains the author together with that roster, or an empty
list and no team when none matches. Any fetch error propagates. -/
def find_author_dev_team_members (fetch : Identifier → Except ε (List TeamMember))
    (teams : List AzureTeam) (author_id : Identifier) :
    Except ε (List TeamMember × Option AzureTeam) :=
  match teams with
  | [] => .ok ([], none)
  | team :: rest =>
    match fetch team.name with
    | .error e => .error e
    | .ok members =>
      if members.any (fun member => member.id == author_id) then
        .ok (members, some team)
      else
        find_author_dev_team_members fetch rest author_id

/-- Function `add_required_reviwers` (`add_reviewers_service.rs:96-135`), the
reviewer selection engine: resolve the author's dev team and its paired
required-reviewers team, shuffle both pools once, and append to `reviwers`
the identifiers of the interleave of the eligible peers with the eligible
required-team members not already present among the peer identifiers. -/
def add_required_reviwers (fetch : Identifier → Except ε (List TeamMember))
    (shuffle_teams : TeamMembersShuffler) (teams : List AzureTeam)
    (reviwers : List Identifier) (author_id : Identifier)
    (can_be_added : TeamMember → Bool) : Except ε (List Identifier) :=
  match find_author_dev_team_members fetch teams author_id with
  | .error e => .error e
  | .ok (team_members, team) =>
    let required_reviewers_team := team.bind (fun t => t.required_reviewers_team)
    match (match required_reviewers_team with
           | some team_name => fetch team_name
           | none => .ok []) with
    | .error e => .error e
    | .ok required_reviewers =>
      let pools := shuffle_teams team_members required_reviewers
      let shuffled_members := pools.1
      let shuffled_required := pools.2
      let team_members_ids := shuffled_members.map (fun m => m.id)
      .ok (reviwers ++
        (interleave (shuffled_members.filter can_be_added)
          (shuffled_required.filter (fun member =>
            can_be_added member && !(team_members_ids.contains member.id)))).map
          (fun reviwer => reviwer.id))

/-- The eligibility closure passed to `add_required_reviwers`
(`add_reviewers_service.rs:202-207`): not the author, not an existing
reviewer, not out of office. -/
def can_be_added_pred (author_id : Identifier) (existing_reviewers : List Identifier)
    (is_on_vacation : String → Bool) (member : TeamMember) : Bool :=
  !(author_id == member.id) && !(existing_reviewers.contains member.id) &&
    !(is_on_vacation member.name)

/-- The fill-phase filter (`add_reviewers_service.rs:220-225`): not the
author, not already selected by the required phase, not an existing
reviewer. -/
def fill_filter (author_id : Identifier) (new_reviewers_set : List Identifier)
    (existing_reviewers : List Identifier) (member : TeamMember) : Bool :=
  !(author_id == member.id) && !(new_reviewers_set.contains member.id) &&
    !(existing_reviewers.contains member.id)

/-- Position-based tagging (`add_reviewers_service.rs:228-235`): the entry at
`index` is flagged required iff `required_reviwers_left.saturating_sub(index)`
is positive. -/
def tag_required (required_reviwers_left : Nat) (ids : List Identifier) :
    List NewPullRequestReviewer :=
  ids.enum.map (fun p =>
    { id := p.2, is_required := decide (0 < required_reviwers_left - p.1) })

/-- Remaining required-slot budget (`add_reviewers_service.rs:190-199`):
the configured target minus the number of existing reviewers flagged
required, saturating at zero. -/
def required_reviwers_left (config : ReviewersConfig) (pull_request : PullRequest) : Nat :=
  config.required_reviewers_count -
    (pull_request.reviewers.filter (fun r => r.is_required)).length

/-- Fill-and-tag tail of `add_reviewers` (`add_reviewers_service.rs:211-235`):
partition the full team into on-vacation and not-on-vacation, append the
eligible members of the concatenation (not-on-vacation first) after the
required-phase selection `new_reviewers`, and tag entries required by
position. -/
def fill_and_tag (pull_request : PullRequest) (all_members : List TeamMember)
    (config : ReviewersConfig) (is_on_vacation : String → Bool)
    (new_reviewers : List Identifier) : List NewPullRequestReviewer :=
  let author_id := pull_request.created_by.id
  let existing_reviewers := pull_request.reviewers.map (fun v => v.id)
  let parts := all_members.partition (fun member => is_on_vacation member.name)
  let on_vacation := parts.1
  let not_on_vacation := parts.2
  let fill := (not_on_vacation ++ on_vacation).filter
    (fill_filter author_id new_reviewers existing_reviewers)
  tag_required (required_reviwers_left config pull_request)
    (new_reviewers ++ fill.map (fun member => member.id))

/-- Function `add_reviewers` (`add_reviewers_service.rs:159-241`), the
assignment orchestrator. Fetch the full team and the pull request; finish
without submitting when the pull request is not active; when the remaining
required budget is positive run the selection engine; then fill with the
remaining team members (not-on-vacation first), tag by position, and submit
the resulting batch. -/
def add_reviewers (fetch : Identifier → Except ε (List TeamMember))
    (obtain_pull_request : Except ε PullRequest)
    (shuffle_teams : TeamMembersShuffler) (team_name : String)
    (config : ReviewersConfig) (is_on_vacation : String → Bool) :
    Except ε (Option (List NewPullRequestReviewer)) :=
  match fetch team_name, obtain_pull_request with
  | .error e, _ => .error e
  | .ok _, .error e => .error e
  | .ok all_members, .ok pull_request =>
    if PullRequestStatus.Active ≠ pull_request.status then
      .ok none
    else
      match (if 0 < required_reviwers_left config pull_request then
               add_required_reviwers fetch shuffle_teams config.teams []
                 pull_request.created_by.id
                 (can_be_added_pred pull_request.created_by.id
                   (pull_request.reviewers.map (fun v => v.id)) is_on_vacation)
             else .ok []) with
      | .error e => .error e
      | .ok new_reviewers =>
        .ok (some (fill_and_tag pull_request all_members config is_on_vacation
          new_reviewers))

/-- Modelled from the spec (sections 4.3 and 9): strict round-robin merge of
two pools starting with the first pool, draining the remainder of the longer
pool once the shorter is exhausted. Used only to compare the source's
`interleave` combinator against the spec's description. -/
def round_robin_spec : List α → List α → List α
  | [], ys => ys
  | x :: xs, [] => x :: xs
  | x :: xs, y :: ys => x :: y :: round_robin_spec xs ys

/-- Modelled from the spec (section 4.3): the selection engine's contract on
two already-shuffled pools — round-robin the peers passing `eligible` with
the required-team members passing `eligible` whose identifier is not among
the peer identifiers, and emit identifiers. -/
def select_spec (peers required_team_members : List TeamMember)
    (eligible : TeamMember → Bool) : List Identifier :=
  let peer_ids := peers.map (fun m => m.id)
  (round_robin_spec (peers.filter eligible)
    (required_team_members.filter (fun m =>
      eligible m && !(peer_ids.contains m.id)))).map (fun m => m.id)

/-- Identity shuffler `fake_shuffle_teams` from the service's test module:
pools are passed through unchanged (already-shuffled reading). -/
def fake_shuffle_teams : TeamMembersShuffler :=
  fun first_team second_team => (first_team, second_team)

/-- Property of a shuffler matching `shuffle_teams_members`
(`add_reviewers_service.rs:244-252`) and the spec's section 4.2 contract:
each output pool is a permutation of the corresponding input pool. -/
def shuffler_permutes (sh : TeamMembersShuffler) : Prop :=
  ∀ a b, ((sh a b).1.Perm a) ∧ ((sh a b).2.Perm b)

/-- Concrete fixture: a team member whose id and display name coincide. -/
def ex_member (s : String) : TeamMember :=
  { id := s, name := s, is_container := false }

/-- Concrete fixture: one configured dev team with a paired
required-reviewers team. -/
def ex_teams : List AzureTeam :=
  [{ name := "Team_1", required_reviewers_team := some "RequiredTeam" }]

/-- Concrete fixture for the roster service: peers 1-3, required-reviewers
team 4-5, full reporting team 1-9, every other roster empty. -/
def ex_fetch : Identifier → Except String (List TeamMember) := fun team_name =>
  if team_name = "Team_1" then .ok (["1", "2", "3"].map ex_member)
  else if team_name = "RequiredTeam" then .ok (["4", "5"].map ex_member)
  else if team_name = "AllMembers" then
    .ok (["1", "2", "3", "4", "5", "6", "7", "8", "9"].map ex_member)
  else .ok []

/-- Concrete fixture: an active pull request authored by member 1 with no
existing reviewers. -/
def ex_pull_request : PullRequest :=
  { id := 7, title := "Example", url := "https://example.invalid/pr/7",
    created_by := { id := "1", name := "1" }, creation_date := 0,
    reviewers := [], status := PullRequestStatus.Active }

/-- Concrete fixture: target of two required reviewers over `ex_teams`. -/
def ex_config : ReviewersConfig :=
  { required_reviewers_count := 2, teams := ex_teams }

/-- Expected submission batch for the fixture run (the spec's section 8
identity-shuffler scenario). -/
def ex_output : List NewPullRequestReviewer :=
  [{ id := "2", is_required := true }, { id := "4", is_required := true },
   { id := "3", is_required := false }, { id := "5", is_required := false },
   { id := "6", is_required := false }, { id := "7", is_required := false },
   { id := "8", is_required := false }, { id := "9", is_required := false }]

/-- Concrete fixture for empty rosters: every team lookup yields no member. -/
def ex_fetch_empty : Identifier → Except String (List TeamMember) :=
  fun _ => .ok []

/-- Expected submission batch for the fixture run with zero required
target and member 2 on vacation. -/
def ex_vac_output : List NewPullRequestReviewer :=
  ["3", "4", "5", "6", "7", "8", "9", "2"].map
    (fun id => { id := id, is_required := false })

/-- Concrete fixture: an existing reviewer who has declined. -/
def ex_declined_reviewer : PullRequestReviewer :=
  { id := "9", name := "9", is_required := false, vote := Vote.NoVote,
    has_declined := true }

/-- Concrete fixture: the same existing reviewer, not declined. -/
def ex_undeclined_reviewer : PullRequestReviewer :=
  { id := "9", name := "9", is_required := false, vote := Vote.NoVote,
    has_declined := false }

/-- Concrete fixture: the pull request with one declined reviewer. -/
def ex_pr_declined : PullRequest :=
  { ex_pull_request with reviewers := [ex_declined_reviewer] }

/-- Concrete fixture: readback of a proposed reviewer as an existing
reviewer, preserving identifier and required flag. -/
def ex_mk (r : NewPullRequestReviewer) : PullRequestReviewer :=
  { id := r.id, name := r.id, is_required := r.is_required, vote := Vote.NoVote,
    has_declined := false }

theorem interleave_nil_right (xs : List α) : interleave xs [] = xs := by
  cases xs <;> rfl

theorem interleave_perm (xs ys : List α) : (interleave xs ys).Perm (xs ++ ys) := by
  induction xs generalizing ys with
  | nil => simp [interleave]
  | cons x xs ih =>
    cases ys with
    | nil => simp [interleave_nil_right]
    | cons y ys =>
      show (x :: y :: interleave xs ys).Perm ((x :: xs) ++ (y :: ys))
      refine List.Perm.cons x ?_
      exact ((ih ys).cons y).trans (List.perm_middle.symm)

theorem mem_interleave {a : α} {xs ys : List α} :
    a ∈ interleave xs ys ↔ a ∈ xs ∨ a ∈ ys := by
  rw [(interleave_perm xs ys).mem_iff, List.mem_append]

theorem interleave_eq_round_robin (xs ys : List α) :
    interleave xs ys = round_robin_spec xs ys := by
  induction xs generalizing ys with
  | nil => rfl
  | cons x xs ih =>
    cases ys with
    | nil => rfl
    | cons y ys =>
      simp only [interleave, round_robin_spec]
      rw [ih ys]

theorem tag_from_eq (left n : Nat) (ids : List Identifier) :
    (ids.enumFrom n).map (fun p =>
        ({ id := p.2, is_required := decide (0 < left - p.1) } : NewPullRequestReviewer)) =
      (ids.take (left - n)).map (fun id => { id := id, is_required := true }) ++
      (ids.drop (left - n)).map (fun id => { id := id, is_required := false }) := by
  induction ids generalizing n with
  | nil => simp
  | cons x xs ih =>
    rw [List.enumFrom_cons, List.map_cons, ih (n + 1)]
    by_cases h : n < left
    · have h1 : left - n = (left - (n + 1)) + 1 := by omega
      have h2 : (0 < left - n) = True := by simp; omega
      simp [h1, h2]
    · have h1 : left - n = 0 := by omega
      have h2 : left - (n + 1) = 0 := by omega
      have h3 : (0 < left - n) = False := by simp; omega
      simp [h1, h2, h3]

theorem tag_required_eq (left : Nat) (ids : List Identifier) :
    tag_required left ids =
      (ids.take left).map (fun id => { id := id, is_required := true }) ++
      (ids.drop left).map (fun id => { id := id, is_required := false }) := by
  have h := tag_from_eq left 0 ids
  simpa [tag_required, List.enum] using h

theorem tag_required_map_id (left : Nat) (ids : List Identifier) :
    (tag_required left ids).map (fun r => r.id) = ids := by
  rw [tag_required_eq, List.map_append, List.map_map, List.map_map]
  have h1 : ((fun r : NewPullRequestReviewer => r.id) ∘
      fun id => ({ id := id, is_required := true } : NewPullRequestReviewer)) = id := rfl
  have h2 : ((fun r : NewPullRequestReviewer => r.id) ∘
      fun id => ({ id := id, is_required := false } : NewPullRequestReviewer)) = id := rfl
  rw [h1, h2, List.map_id, List.map_id, List.take_append_drop]

theorem tag_required_length (left : Nat) (ids : List Identifier) :
    (tag_required left ids).length = ids.length := by
  simp [tag_required]

theorem tag_required_count (left : Nat) (ids : List Identifier) :
    ((tag_required left ids).filter (fun r => r.is_required)).length =
      min left ids.length := by
  rw [tag_required_eq, List.filter_append]
  have h1 : ∀ (l : List Identifier),
      (l.map (fun id => ({ id := id, is_required := true } : NewPullRequestReviewer))).filter
        (fun r => r.is_required) =
      l.map (fun id => { id := id, is_required := true }) := by
    intro l; induction l with
    | nil => rfl
    | cons a l ih => simp [List.filter, ih]
  have h2 : ∀ (l : List Identifier),
      (l.map (fun id => ({ id := id, is_required := false } : NewPullRequestReviewer))).filter
        (fun r => r.is_required) = [] := by
    intro l; induction l with
    | nil => rfl
    | cons a l ih => simp [List.filter, ih]
  rw [h1, h2]
  simp [List.length_take]

theorem tag_required_get (left : Nat) (ids : List Identifier) (i : Nat)
    (h : i < (tag_required left ids).length) :
    ((tag_required left ids).get ⟨i, h⟩).is_required = decide (i < left) := by
  have hlen : i < ids.length := by
    rw [tag_required_length] at h; exact h
  rw [List.get_of_eq (tag_required_eq left ids) ⟨i, h⟩]
  simp only [List.get_eq_getElem]
  by_cases hi : i < left
  · have hmem : i < ((ids.take left).map (fun id =>
        ({ id := id, is_required := true } : NewPullRequestReviewer))).length := by
      simp [List.length_take]; omega
    rw [List.getElem_append_left hmem]
    simp [hi]
  · have hlt : ((ids.take left).map (fun id =>
        ({ id := id, is_required := true } : NewPullRequestReviewer))).length ≤ i := by
      simp [List.length_take]; omega
    rw [List.getElem_append_right hlt]
    simp [hi]

theorem find_author_ok_some {ε : Type} (fetch : Identifier → Except ε (List TeamMember))
    (teams : List AzureTeam) (author_id : Identifier) (tm : List TeamMember) (t : AzureTeam)
    (h : find_author_dev_team_members fetch teams author_id = .ok (tm, some t)) :
    fetch t.name = .ok tm := by
  induction teams with
  | nil => simp [find_author_dev_team_members] at h
  | cons team rest ih =>
    rw [find_author_dev_team_members] at h
    cases hf : fetch team.name with
    | error e => rw [hf] at h; simp at h
    | ok members =>
      rw [hf] at h
      by_cases hmem : members.any (fun member => member.id == author_id)
      · simp [hmem] at h
        obtain ⟨h1, h2⟩ := h
        rw [← h2, ← h1]
        exact hf
      · simp [hmem] at h
        exact ih h

theorem find_author_ok_none {ε : Type} (fetch : Identifier → Except ε (List TeamMember))
    (teams : List AzureTeam) (author_id : Identifier) (tm : List TeamMember)
    (h : find_author_dev_team_members fetch teams author_id = .ok (tm, none)) :
    tm = [] := by
  induction teams with
  | nil => simp [find_author_dev_team_members] at h; exact h
  | cons team rest ih =>
    rw [find_author_dev_team_members] at h
    cases hf : fetch team.name with
    | error e => rw [hf] at h; simp at h
    | ok members =>
      rw [hf] at h
      by_cases hmem : members.any (fun member => member.id == author_id)
      · simp [hmem] at h
      · simp [hmem] at h
        exact ih h

theorem add_required_reviwers_ok {ε : Type} (fetch : Identifier → Except ε (List TeamMember))
    (sh : TeamMembersShuffler) (teams : List AzureTeam) (rev : List Identifier)
    (author_id : Identifier) (p : TeamMember → Bool) (out : List Identifier)
    (h : add_required_reviwers fetch sh teams rev author_id p = .ok out) :
    ∃ tm team rr,
      find_author_dev_team_members fetch teams author_id = .ok (tm, team) ∧
      (match team.bind (fun t => t.required_reviewers_team) with
       | some n => fetch n = .ok rr
       | none => rr = []) ∧
      out = rev ++ (interleave ((sh tm rr).1.filter p)
        ((sh tm rr).2.filter (fun m =>
          p m && !(((sh tm rr).1.map (fun x => x.id)).contains m.id)))).map
        (fun m => m.id) := by
  unfold add_required_reviwers at h
  split at h
  · exact absurd h (by simp)
  · next tm team heq =>
    dsimp only at h
    split at h
    · exact absurd h (by simp)
    · next rr heq2 =>
      refine ⟨tm, team, rr, heq, ?_, ?_⟩
      · cases hb : team.bind (fun t => t.required_reviewers_team) with
        | none =>
          rw [hb] at heq2
          simp only [Except.ok.injEq] at heq2
          simpa using heq2.symm
        | some n =>
          rw [hb] at heq2
          exact heq2
      · injection h with h
        exact h.symm

theorem add_reviewers_run {ε : Type} (fetch : Identifier → Except ε (List TeamMember))
    (pr : PullRequest) (all_members : List TeamMember) (sh : TeamMembersShuffler)
    (tn : String) (cfg : ReviewersConfig) (vac : String → Bool) (base : List Identifier)
    (hf : fetch tn = .ok all_members) (hact : pr.status = .Active)
    (hbase : if 0 < required_reviwers_left cfg pr then
               add_required_reviwers fetch sh cfg.teams [] pr.created_by.id
                 (can_be_added_pred pr.created_by.id
                   (pr.reviewers.map (fun v => v.id)) vac) = .ok base
             else base = []) :
    add_reviewers fetch (.ok pr) sh tn cfg vac =
      .ok (some (fill_and_tag pr all_members cfg vac base)) := by
  unfold add_reviewers
  rw [hf]
  have hne : ¬ (PullRequestStatus.Active ≠ pr.status) := by rw [hact]; simp
  dsimp only
  rw [if_neg hne]
  by_cases hl : 0 < required_reviwers_left cfg pr
  · rw [if_pos hl] at hbase
    rw [if_pos hl, hbase]
  · rw [if_neg hl] at hbase
    rw [if_neg hl, hbase]

theorem add_reviewers_ok_some {ε : Type} (fetch : Identifier → Except ε (List TeamMember))
    (pr : PullRequest) (sh : TeamMembersShuffler) (tn : String) (cfg : ReviewersConfig)
    (vac : String → Bool) (out : List NewPullRequestReviewer)
    (h : add_reviewers fetch (.ok pr) sh tn cfg vac = .ok (some out)) :
    pr.status = .Active ∧
    ∃ all_members base,
      fetch tn = .ok all_members ∧
      (if 0 < required_reviwers_left cfg pr then
         add_required_reviwers fetch sh cfg.teams [] pr.created_by.id
           (can_be_added_pred pr.created_by.id
             (pr.reviewers.map (fun v => v.id)) vac) = .ok base
       else base = []) ∧
      out = fill_and_tag pr all_members cfg vac base := by
  unfold add_reviewers at h
  split at h
  · exact absurd h (by simp)
  · exact absurd h (by simp)
  · next all_members pull_request heq1 heq2 =>
    injection heq2 with heq2
    subst heq2
    split at h
    · exact absurd h (by simp)
    · next hact =>
      split at h
      · exact absurd h (by simp)
      · next new_reviewers heq3 =>
        simp only [Except.ok.injEq, Option.some.injEq] at h
        refine ⟨(not_ne_iff.mp hact).symm, all_members, new_reviewers, heq1, ?_, h.symm⟩
        by_cases hl : 0 < required_reviwers_left cfg pr
        · rw [if_pos hl] at heq3
          rw [if_pos hl]
          exact heq3
        · rw [if_neg hl] at heq3
          rw [if_neg hl]
          simpa using heq3.symm

theorem can_be_added_pred_iff (author_id : Identifier) (existing : List Identifier)
    (vac : String → Bool) (m : TeamMember) :
    can_be_added_pred author_id existing vac m = true ↔
      author_id ≠ m.id ∧ m.id ∉ existing ∧ vac m.name = false := by
  simp [can_be_added_pred, List.contains, and_assoc]

theorem fill_filter_iff (author_id : Identifier) (sel existing : List Identifier)
    (m : TeamMember) :
    fill_filter author_id sel existing m = true ↔
      author_id ≠ m.id ∧ m.id ∉ sel ∧ m.id ∉ existing := by
  simp [fill_filter, List.contains, and_assoc]

theorem mem_parts {p : TeamMember → Bool} {l : List TeamMember} {m : TeamMember} :
    m ∈ (l.partition p).2 ++ (l.partition p).1 ↔ m ∈ l := by
  rw [List.partition_eq_filter_filter]
  simp only [List.mem_append, List.mem_filter]
  by_cases hp : p m <;> simp [hp]

theorem fill_and_tag_ids (pr : PullRequest) (all_members : List TeamMember)
    (cfg : ReviewersConfig) (vac : String → Bool) (base : List Identifier) :
    (fill_and_tag pr all_members cfg vac base).map (fun r => r.id) =
      base ++ (((all_members.partition (fun member => vac member.name)).2 ++
          (all_members.partition (fun member => vac member.name)).1).filter
        (fill_filter pr.created_by.id base (pr.reviewers.map (fun v => v.id)))).map
        (fun member => member.id) := by
  unfold fill_and_tag
  rw [tag_required_map_id]

theorem base_mem_can_be_added {ε : Type} (fetch : Identifier → Except ε (List TeamMember))
    (sh : TeamMembersShuffler) (teams : List AzureTeam) (author_id : Identifier)
    (p : TeamMember → Bool) (base : List Identifier)
    (h : add_required_reviwers fetch sh teams [] author_id p = .ok base) :
    ∀ x ∈ base, ∃ m : TeamMember, m.id = x ∧ p m = true := by
  obtain ⟨tm, team, rr, hfind, hrr, hout⟩ :=
    add_required_reviwers_ok fetch sh teams [] author_id p base h
  subst hout
  intro x hx
  simp only [List.nil_append, List.mem_map] at hx
  obtain ⟨m, hm, rfl⟩ := hx
  rw [mem_interleave] at hm
  rcases hm with hm | hm
  · exact ⟨m, rfl, (List.mem_filter.mp hm).2⟩
  · have hp := (List.mem_filter.mp hm).2
    simp only [Bool.and_eq_true] at hp
    exact ⟨m, rfl, hp.1⟩

theorem add_reviewers_mem_excludes {ε : Type} (fetch : Identifier → Except ε (List TeamMember))
    (pr : PullRequest) (sh : TeamMembersShuffler) (tn : String) (cfg : ReviewersConfig)
    (vac : String → Bool) (out : List NewPullRequestReviewer)
    (h : add_reviewers fetch (.ok pr) sh tn cfg vac = .ok (some out)) :
    ∀ r ∈ out, r.id ≠ pr.created_by.id ∧ r.id ∉ pr.reviewers.map (fun v => v.id) := by
  obtain ⟨hact, all_members, base, hf, hbase, hout⟩ :=
    add_reviewers_ok_some fetch pr sh tn cfg vac out h
  subst hout
  intro r hr
  have hid : r.id ∈ (fill_and_tag pr all_members cfg vac base).map (fun r => r.id) :=
    List.mem_map_of_mem _ hr
  rw [fill_and_tag_ids] at hid
  rcases List.mem_append.mp hid with hb | hfl
  · have hbase2 : ∀ x ∈ base, ∃ m : TeamMember, m.id = x ∧
        can_be_added_pred pr.created_by.id (pr.reviewers.map (fun v => v.id)) vac m = true := by
      by_cases hl : 0 < required_reviwers_left cfg pr
      · rw [if_pos hl] at hbase
        exact base_mem_can_be_added fetch sh cfg.teams pr.created_by.id _ base hbase
      · rw [if_neg hl] at hbase
        subst hbase
        intro x hx
        cases hx
    obtain ⟨m, hmid, hmp⟩ := hbase2 _ hb
    rw [can_be_added_pred_iff] at hmp
    rw [← hmid]
    exact ⟨fun hh => hmp.1 hh.symm, hmp.2.1⟩
  · obtain ⟨m, hm, hmid⟩ := List.mem_map.mp hfl
    have hmp := (List.mem_filter.mp hm).2
    rw [fill_filter_iff] at hmp
    rw [← hmid]
    exact ⟨fun hh => hmp.1 hh.symm, hmp.2.2⟩

theorem base_ids_nodup {ε : Type} (fetch : Identifier → Except ε (List TeamMember))
    (sh : TeamMembersShuffler) (teams : List AzureTeam) (author_id : Identifier)
    (p : TeamMember → Bool) (base : List Identifier)
    (hnodup : ∀ t r, fetch t = .ok r → (r.map (fun m => m.id)).Nodup)
    (hsh : shuffler_permutes sh)
    (h : add_required_reviwers fetch sh teams [] author_id p = .ok base) :
    base.Nodup := by
  obtain ⟨tm, team, rr, hfind, hrr, hout⟩ :=
    add_required_reviwers_ok fetch sh teams [] author_id p base h
  subst hout
  simp only [List.nil_append]
  have htm : (tm.map (fun m => m.id)).Nodup := by
    cases team with
    | some t => exact hnodup _ _ (find_author_ok_some fetch teams author_id tm t hfind)
    | none =>
      rw [find_author_ok_none fetch teams author_id tm hfind]
      simp
  have hrr2 : (rr.map (fun m => m.id)).Nodup := by
    cases hb : team.bind (fun t => t.required_reviewers_team) with
    | some n =>
      rw [hb] at hrr
      exact hnodup _ _ hrr
    | none =>
      rw [hb] at hrr
      subst hrr
      simp
  have h1 : ((sh tm rr).1.map (fun m => m.id)).Nodup :=
    (((hsh tm rr).1.map (fun m => m.id)).nodup_iff).mpr htm
  have h2 : ((sh tm rr).2.map (fun m => m.id)).Nodup :=
    (((hsh tm rr).2.map (fun m => m.id)).nodup_iff).mpr hrr2
  have hperm : ((interleave ((sh tm rr).1.filter p)
      ((sh tm rr).2.filter (fun m =>
        p m && !(((sh tm rr).1.map (fun x => x.id)).contains m.id)))).map
      (fun m => m.id)).Perm
      (((sh tm rr).1.filter p).map (fun m => m.id) ++
       ((sh tm rr).2.filter (fun m =>
        p m && !(((sh tm rr).1.map (fun x => x.id)).contains m.id))).map (fun m => m.id)) := by
    have := (interleave_perm ((sh tm rr).1.filter p)
      ((sh tm rr).2.filter (fun m =>
        p m && !(((sh tm rr).1.map (fun x => x.id)).contains m.id)))).map (fun m => m.id)
    rw [List.map_append] at this
    exact this
  rw [hperm.nodup_iff]
  rw [List.nodup_append]
  refine ⟨?_, ?_, ?_⟩
  · exact (((List.filter_sublist (sh tm rr).1).map (fun m => m.id)).nodup h1)
  · exact (((List.filter_sublist (sh tm rr).2).map (fun m => m.id)).nodup h2)
  · intro a ha hb
    obtain ⟨mb, hmb, hmbid⟩ := List.mem_map.mp hb
    have hq := (List.mem_filter.mp hmb).2
    simp only [Bool.and_eq_true, Bool.not_eq_true'] at hq
    have hcont : mb.id ∉ ((sh tm rr).1.map (fun x => x.id)) := by
      intro hmem
      have : ((sh tm rr).1.map (fun x => x.id)).contains mb.id = true := by
        simp [List.contains]
        obtain ⟨y, hy, hyid⟩ := List.mem_map.mp hmem
        exact ⟨y, hy, hyid⟩
      rw [this] at hq
      exact absurd hq.2 (by simp)
    apply hcont
    rw [hmbid]
    have hsub : ((sh tm rr).1.filter p).Sublist (sh tm rr).1 := List.filter_sublist _
    exact (hsub.map (fun m => m.id)).subset ha

theorem parts_perm (p : TeamMember → Bool) (l : List TeamMember) :
    ((l.partition p).2 ++ (l.partition p).1).Perm l := by
  rw [List.partition_eq_filter_filter]
  refine (List.perm_append_comm).trans ?_
  have hfun : (not ∘ p) = (fun x => !(p x)) := rfl
  rw [hfun]
  exact List.filter_append_perm p l

theorem out_ids_nodup {ε : Type} (fetch : Identifier → Except ε (List TeamMember))
    (pr : PullRequest) (sh : TeamMembersShuffler) (tn : String) (cfg : ReviewersConfig)
    (vac : String → Bool) (out : List NewPullRequestReviewer)
    (hnodup : ∀ t r, fetch t = .ok r → (r.map (fun m => m.id)).Nodup)
    (hsh : shuffler_permutes sh)
    (h : add_reviewers fetch (.ok pr) sh tn cfg vac = .ok (some out)) :
    (out.map (fun r => r.id)).Nodup := by
  obtain ⟨hact, all_members, base, hf, hbase, hout⟩ :=
    add_reviewers_ok_some fetch pr sh tn cfg vac out h
  subst hout
  rw [fill_and_tag_ids, List.nodup_append]
  have hbase_nodup : base.Nodup := by
    by_cases hl : 0 < required_reviwers_left cfg pr
    · rw [if_pos hl] at hbase
      exact base_ids_nodup fetch sh cfg.teams pr.created_by.id _ base hnodup hsh hbase
    · rw [if_neg hl] at hbase
      subst hbase
      simp
  have hall : (all_members.map (fun m => m.id)).Nodup := hnodup _ _ hf
  have hpp := parts_perm (fun member => vac member.name) all_members
  have hcat_nodup : ((((all_members.partition (fun member => vac member.name)).2 ++
      (all_members.partition (fun member => vac member.name)).1)).map
      (fun m => m.id)).Nodup :=
    ((hpp.map (fun m => m.id)).nodup_iff).mpr hall
  have hfill_nodup : (((((all_members.partition (fun member => vac member.name)).2 ++
      (all_members.partition (fun member => vac member.name)).1)).filter
        (fill_filter pr.created_by.id base (pr.reviewers.map (fun v => v.id)))).map
      (fun member => member.id)).Nodup := by
    have hsub := (List.filter_sublist (p :=
      fill_filter pr.created_by.id base (pr.reviewers.map (fun v => v.id)))
      ((all_members.partition (fun member => vac member.name)).2 ++
       (all_members.partition (fun member => vac member.name)).1))
    exact (hsub.map (fun m => m.id)).nodup hcat_nodup
  refine ⟨hbase_nodup, hfill_nodup, ?_⟩
  intro a ha hb
  obtain ⟨m, hm, hmid⟩ := List.mem_map.mp hb
  have hmp := (List.mem_filter.mp hm).2
  rw [fill_filter_iff] at hmp
  rw [hmid] at hmp
  exact hmp.2.1 ha

theorem fill_and_tag_count (pr : PullRequest) (all_members : List TeamMember)
    (cfg : ReviewersConfig) (vac : String → Bool) (base : List Identifier) :
    ((fill_and_tag pr all_members cfg vac base).filter (fun r => r.is_required)).length =
      min (required_reviwers_left cfg pr) (fill_and_tag pr all_members cfg vac base).length := by
  unfold fill_and_tag
  rw [tag_required_count, tag_required_length]

theorem fill_and_tag_get (pr : PullRequest) (all_members : List TeamMember)
    (cfg : ReviewersConfig) (vac : String → Bool) (base : List Identifier)
    (i : Nat) (h : i < (fill_and_tag pr all_members cfg vac base).length) :
    ((fill_and_tag pr all_members cfg vac base).get ⟨i, h⟩).is_required =
      decide (i < required_reviwers_left cfg pr) := by
  have heq : fill_and_tag pr all_members cfg vac base =
      tag_required (required_reviwers_left cfg pr)
        (base ++ (((all_members.partition (fun member => vac member.name)).2 ++
            (all_members.partition (fun member => vac member.name)).1).filter
          (fill_filter pr.created_by.id base (pr.reviewers.map (fun v => v.id)))).map
          (fun member => member.id)) := rfl
  rw [List.get_of_eq heq ⟨i, h⟩]
  exact tag_required_get _ _ i _

/-- C1: for every run of `add_reviewers` on an active pull request, given
duplicate-free fetched rosters and a permuting shuffler, the submitted
output identifiers are pairwise distinct, none equals the author's
identifier, and none equals any existing reviewer's identifier. -/
theorem claim_C1 {ε : Type} (fetch : Identifier → Except ε (List TeamMember))
    (pr : PullRequest) (sh : TeamMembersShuffler) (tn : String) (cfg : ReviewersConfig)
    (vac : String → Bool) (out : List NewPullRequestReviewer)
    (hnodup : ∀ t r, fetch t = .ok r → (r.map (fun m => m.id)).Nodup)
    (hsh : shuffler_permutes sh)
    (hrun : add_reviewers fetch (.ok pr) sh tn cfg vac = .ok (some out)) :
    (out.map (fun r => r.id)).Nodup ∧
    ∀ r ∈ out, r.id ≠ pr.created_by.id ∧ ∀ v ∈ pr.reviewers, r.id ≠ v.id := by
  refine ⟨out_ids_nodup fetch pr sh tn cfg vac out hnodup hsh hrun, ?_⟩
  intro r hr
  have hx := add_reviewers_mem_excludes fetch pr sh tn cfg vac out hrun r hr
  refine ⟨hx.1, ?_⟩
  intro v hv heq
  apply hx.2
  rw [heq]
  exact List.mem_map_of_mem (fun v => v.id) hv

theorem claim_C1_witness :
    (ex_output.map (fun r => r.id)).Nodup ∧
    ∀ r ∈ ex_output, r.id ≠ ex_pull_request.created_by.id ∧
      ∀ v ∈ ex_pull_request.reviewers, r.id ≠ v.id :=
  claim_C1 ex_fetch ex_pull_request fake_shuffle_teams "AllMembers" ex_config
    (fun _ => false) ex_output
    (by
      intro t r h
      unfold ex_fetch at h
      split at h
      · injection h with h
        subst h
        decide
      · split at h
        · injection h with h
          subst h
          decide
        · split at h
          · injection h with h
            subst h
            decide
          · injection h with h
            subst h
            decide)
    (fun a b => ⟨List.Perm.refl a, List.Perm.refl b⟩)
    rfl

/-- C2: in every run of `add_reviewers` on an active pull request, the number
of output entries flagged required equals
`min required_left (length output)`, and never exceeds the configured target
minus the existing required count (the saturating subtraction the code
computes). -/
theorem claim_C2 {ε : Type} (fetch : Identifier → Except ε (List TeamMember))
    (pr : PullRequest) (sh : TeamMembersShuffler) (tn : String) (cfg : ReviewersConfig)
    (vac : String → Bool) (out : List NewPullRequestReviewer)
    (hrun : add_reviewers fetch (.ok pr) sh tn cfg vac = .ok (some out)) :
    (out.filter (fun r => r.is_required)).length =
      min (required_reviwers_left cfg pr) out.length ∧
    (out.filter (fun r => r.is_required)).length ≤
      cfg.required_reviewers_count -
        (pr.reviewers.filter (fun r => r.is_required)).length := by
  obtain ⟨hact, all_members, base, hf, hbase, hout⟩ :=
    add_reviewers_ok_some fetch pr sh tn cfg vac out hrun
  subst hout
  refine ⟨fill_and_tag_count pr all_members cfg vac base, ?_⟩
  rw [fill_and_tag_count pr all_members cfg vac base]
  exact Nat.min_le_left _ _

theorem claim_C2_witness :
    (ex_output.filter (fun r => r.is_required)).length =
      min (required_reviwers_left ex_config ex_pull_request) ex_output.length ∧
    (ex_output.filter (fun r => r.is_required)).length ≤
      ex_config.required_reviewers_count -
        (ex_pull_request.reviewers.filter (fun r => r.is_required)).length :=
  claim_C2 ex_fetch ex_pull_request fake_shuffle_teams "AllMembers" ex_config
    (fun _ => false) ex_output rfl

/-- C3: in every output of `add_reviewers`, every entry flagged required
occurs before every entry flagged optional, and every position at or past the
required budget is flagged optional. -/
theorem claim_C3 {ε : Type} (fetch : Identifier → Except ε (List TeamMember))
    (pr : PullRequest) (sh : TeamMembersShuffler) (tn : String) (cfg : ReviewersConfig)
    (vac : String → Bool) (out : List NewPullRequestReviewer)
    (hrun : add_reviewers fetch (.ok pr) sh tn cfg vac = .ok (some out)) :
    (∀ i j (hi : i < out.length) (hj : j < out.length),
       (out.get ⟨i, hi⟩).is_required = true →
       (out.get ⟨j, hj⟩).is_required = false → i < j) ∧
    (∀ i (hi : i < out.length), required_reviwers_left cfg pr ≤ i →
       (out.get ⟨i, hi⟩).is_required = false) := by
  obtain ⟨hact, all_members, base, hf, hbase, hout⟩ :=
    add_reviewers_ok_some fetch pr sh tn cfg vac out hrun
  subst hout
  constructor
  · intro i j hi hj hreq hopt
    rw [fill_and_tag_get pr all_members cfg vac base i hi] at hreq
    rw [fill_and_tag_get pr all_members cfg vac base j hj] at hopt
    simp only [decide_eq_true_eq] at hreq
    simp only [decide_eq_false_iff_not] at hopt
    omega
  · intro i hi hle
    rw [fill_and_tag_get pr all_members cfg vac base i hi]
    simp only [decide_eq_false_iff_not]
    omega

theorem claim_C3_witness :
    (ex_output.get ⟨2, by decide⟩).is_required = false ∧
    (ex_output.get ⟨0, by decide⟩).is_required = true :=
  ⟨(claim_C3 ex_fetch ex_pull_request fake_shuffle_teams "AllMembers" ex_config
      (fun _ => false) ex_output rfl).2 2 (by decide) (by decide), by decide⟩

/-- C5: for every pull request whose status is not active, `add_reviewers`
returns successfully with an empty result (`none`: no reviewers proposed) and
the submission operation is never invoked. -/
theorem claim_C5 {ε : Type} (fetch : Identifier → Except ε (List TeamMember))
    (pr : PullRequest) (sh : TeamMembersShuffler) (tn : String) (cfg : ReviewersConfig)
    (vac : String → Bool) (all_members : List TeamMember)
    (hf : fetch tn = .ok all_members) (h : pr.status ≠ PullRequestStatus.Active) :
    add_reviewers fetch (.ok pr) sh tn cfg vac = .ok none := by
  unfold add_reviewers
  rw [hf]
  dsimp only
  rw [if_pos (Ne.symm h)]

theorem claim_C5_witness :
    add_reviewers ex_fetch
      (.ok { ex_pull_request with status := PullRequestStatus.Abandoned })
      fake_shuffle_teams "AllMembers" ex_config (fun _ => false) = .ok none :=
  claim_C5 ex_fetch { ex_pull_request with status := PullRequestStatus.Abandoned }
    fake_shuffle_teams "AllMembers" ex_config (fun _ => false)
    (["1", "2", "3", "4", "5", "6", "7", "8", "9"].map ex_member) rfl (by decide)

theorem find_author_first_match {ε : Type} (fetch : Identifier → Except ε (List TeamMember))
    (author_id : Identifier) :
    ∀ (pre : List AzureTeam) (t : AzureTeam) (post : List AzureTeam) (roster : List TeamMember),
      (∀ s ∈ pre, ∃ r, fetch s.name = .ok r ∧ r.any (fun m => m.id == author_id) = false) →
      fetch t.name = .ok roster → roster.any (fun m => m.id == author_id) = true →
      find_author_dev_team_members fetch (pre ++ t :: post) author_id = .ok (roster, some t) := by
  intro pre
  induction pre with
  | nil =>
    intro t post roster hpre hf hany
    rw [List.nil_append, find_author_dev_team_members, hf]
    simp [hany]
  | cons s pre ih =>
    intro t post roster hpre hf hany
    obtain ⟨r, hr, hnone⟩ := hpre s (by simp)
    rw [List.cons_append, find_author_dev_team_members, hr]
    simp only [hnone, Bool.false_eq_true, if_false]
    exact ih t post roster (fun s2 hs2 => hpre s2 (by simp [hs2])) hf hany

theorem find_author_no_match {ε : Type} (fetch : Identifier → Except ε (List TeamMember))
    (author_id : Identifier) :
    ∀ (teams : List AzureTeam),
      (∀ s ∈ teams, ∃ r, fetch s.name = .ok r ∧ r.any (fun m => m.id == author_id) = false) →
      find_author_dev_team_members fetch teams author_id = .ok ([], none) := by
  intro teams
  induction teams with
  | nil => intro _; rfl
  | cons s rest ih =>
    intro hpre
    obtain ⟨r, hr, hnone⟩ := hpre s (by simp)
    rw [find_author_dev_team_members, hr]
    simp only [hnone, Bool.false_eq_true, if_false]
    exact ih (fun s2 hs2 => hpre s2 (by simp [hs2]))

theorem find_author_error_propagates {ε : Type} (fetch : Identifier → Except ε (List TeamMember))
    (author_id : Identifier) :
    ∀ (pre : List AzureTeam) (t : AzureTeam) (post : List AzureTeam) (e : ε),
      (∀ s ∈ pre, ∃ r, fetch s.name = .ok r ∧ r.any (fun m => m.id == author_id) = false) →
      fetch t.name = .error e →
      find_author_dev_team_members fetch (pre ++ t :: post) author_id = .error e := by
  intro pre
  induction pre with
  | nil =>
    intro t post e hpre hf
    rw [List.nil_append, find_author_dev_team_members, hf]
  | cons s pre ih =>
    intro t post e hpre hf
    obtain ⟨r, hr, hnone⟩ := hpre s (by simp)
    rw [List.cons_append, find_author_dev_team_members, hr]
    simp only [hnone, Bool.false_eq_true, if_false]
    exact ih t post e (fun s2 hs2 => hpre s2 (by simp [hs2])) hf

theorem add_reviewers_aborts_on_find_error {ε : Type}
    (fetch : Identifier → Except ε (List TeamMember)) (pr : PullRequest)
    (sh : TeamMembersShuffler) (tn : String) (cfg : ReviewersConfig)
    (vac : String → Bool) (all_members : List TeamMember) (e : ε)
    (hf : fetch tn = .ok all_members) (hact : pr.status = PullRequestStatus.Active)
    (hl : 0 < required_reviwers_left cfg pr)
    (hfind : find_author_dev_team_members fetch cfg.teams pr.created_by.id = .error e) :
    add_reviewers fetch (.ok pr) sh tn cfg vac = .error e := by
  unfold add_reviewers
  rw [hf]
  dsimp only
  rw [if_neg (by rw [hact]; simp)]
  rw [if_pos hl]
  have hreq : add_required_reviwers fetch sh cfg.teams [] pr.created_by.id
      (can_be_added_pred pr.created_by.id (pr.reviewers.map (fun v => v.id)) vac) =
      .error e := by
    unfold add_required_reviwers
    rw [hfind]
  rw [hreq]

/-- C4: on already-shuffled pools (identity shuffler), the selection engine's
output is exactly the spec's strict round-robin interleave, starting with the
peer stream and draining the remainder, of the eligible peers with the
eligible required-team members whose identifier is not among the peer
identifiers. -/
theorem claim_C4 {ε : Type} (fetch : Identifier → Except ε (List TeamMember))
    (teams : List AzureTeam) (author_id : Identifier) (p : TeamMember → Bool)
    (tm rr : List TeamMember) (t : AzureTeam) (rt_name : String)
    (hfind : find_author_dev_team_members fetch teams author_id = .ok (tm, some t))
    (hrt : t.required_reviewers_team = some rt_name)
    (hrr : fetch rt_name = .ok rr) :
    add_required_reviwers fetch fake_shuffle_teams teams [] author_id p =
      .ok (select_spec tm rr p) := by
  unfold add_required_reviwers
  rw [hfind]
  dsimp only [Option.bind]
  rw [hrt]
  dsimp only
  rw [hrr]
  dsimp only [fake_shuffle_teams]
  unfold select_spec
  dsimp only
  rw [interleave_eq_round_robin]
  rfl

theorem claim_C4_witness :
    add_required_reviwers ex_fetch fake_shuffle_teams ex_teams [] "1"
      (can_be_added_pred "1" [] (fun _ => false)) =
      .ok (select_spec (["1", "2", "3"].map ex_member) (["4", "5"].map ex_member)
        (can_be_added_pred "1" [] (fun _ => false))) :=
  claim_C4 ex_fetch ex_teams "1" (can_be_added_pred "1" [] (fun _ => false))
    (["1", "2", "3"].map ex_member) (["4", "5"].map ex_member)
    { name := "Team_1", required_reviewers_team := some "RequiredTeam" }
    "RequiredTeam" rfl rfl rfl

/-- C6: the membership resolver scans the configured teams in order and
returns the first team whose roster contains the author together with that
roster; with no match it returns an empty list and no team without error; a
fetch failure propagates, and when it does the whole `add_reviewers` run
aborts with that error and nothing submitted. -/
theorem claim_C6 {ε : Type} (fetch : Identifier → Except ε (List TeamMember))
    (author_id : Identifier) :
    (∀ (pre : List AzureTeam) (t : AzureTeam) (post : List AzureTeam) (roster : List TeamMember),
       (∀ s ∈ pre, ∃ r, fetch s.name = .ok r ∧ r.any (fun m => m.id == author_id) = false) →
       fetch t.name = .ok roster → roster.any (fun m => m.id == author_id) = true →
       find_author_dev_team_members fetch (pre ++ t :: post) author_id = .ok (roster, some t)) ∧
    (∀ (teams : List AzureTeam),
       (∀ s ∈ teams, ∃ r, fetch s.name = .ok r ∧ r.any (fun m => m.id == author_id) = false) →
       find_author_dev_team_members fetch teams author_id = .ok ([], none)) ∧
    (∀ (pre : List AzureTeam) (t : AzureTeam) (post : List AzureTeam) (e : ε),
       (∀ s ∈ pre, ∃ r, fetch s.name = .ok r ∧ r.any (fun m => m.id == author_id) = false) →
       fetch t.name = .error e →
       find_author_dev_team_members fetch (pre ++ t :: post) author_id = .error e) ∧
    (∀ (pr : PullRequest) (sh : TeamMembersShuffler) (tn : String) (cfg : ReviewersConfig)
       (vac : String → Bool) (all_members : List TeamMember) (e : ε),
       fetch tn = .ok all_members → pr.status = PullRequestStatus.Active →
       pr.created_by.id = author_id →
       0 < required_reviwers_left cfg pr →
       find_author_dev_team_members fetch cfg.teams author_id = .error e →
       add_reviewers fetch (.ok pr) sh tn cfg vac = .error e) := by
  refine ⟨find_author_first_match fetch author_id, find_author_no_match fetch author_id,
    find_author_error_propagates fetch author_id, ?_⟩
  intro pr sh tn cfg vac all_members e hf hact hauthor hl hfind
  refine add_reviewers_aborts_on_find_error fetch pr sh tn cfg vac all_members e hf hact hl ?_
  rw [hauthor]
  exact hfind

theorem claim_C6_witness :
    find_author_dev_team_members ex_fetch
      ([] ++ ({ name := "Team_1", required_reviewers_team := some "RequiredTeam" } :: []))
      "1" = .ok (["1", "2", "3"].map ex_member,
        some { name := "Team_1", required_reviewers_team := some "RequiredTeam" }) :=
  (claim_C6 ex_fetch "1").1 []
    { name := "Team_1", required_reviewers_team := some "RequiredTeam" } []
    (["1", "2", "3"].map ex_member) (by intro s hs; cases hs) rfl rfl

/-- C7: the fill phase partitions the full team into not-on-vacation and
on-vacation sublists, each in original relative order, concatenated
not-on-vacation first; consequently, when the required budget is zero, an
eligible non-vacationing member appears strictly before an eligible
vacationing member in the output. -/
theorem claim_C7 {ε : Type} (fetch : Identifier → Except ε (List TeamMember))
    (pr : PullRequest) (sh : TeamMembersShuffler) (tn : String) (cfg : ReviewersConfig)
    (vac : String → Bool) (out : List NewPullRequestReviewer)
    (hrun : add_reviewers fetch (.ok pr) sh tn cfg vac = .ok (some out)) :
    (∃ all_members base,
       fetch tn = .ok all_members ∧
       out.map (fun r => r.id) = base ++
         ((all_members.filter (fun m => !(vac m.name)) ++
           all_members.filter (fun m => vac m.name)).filter
           (fill_filter pr.created_by.id base (pr.reviewers.map (fun v => v.id)))).map
           (fun m => m.id)) ∧
    (∀ all_members a b,
       fetch tn = .ok all_members →
       required_reviwers_left cfg pr = 0 →
       (all_members.map (fun m => m.id)).Nodup →
       a ∈ all_members → b ∈ all_members →
       vac a.name = false → vac b.name = true →
       fill_filter pr.created_by.id [] (pr.reviewers.map (fun v => v.id)) a = true →
       fill_filter pr.created_by.id [] (pr.reviewers.map (fun v => v.id)) b = true →
       (out.map (fun r => r.id)).indexOf a.id < (out.map (fun r => r.id)).indexOf b.id) := by
  obtain ⟨hact, all_members, base, hf, hbase, hout⟩ :=
    add_reviewers_ok_some fetch pr sh tn cfg vac out hrun
  subst hout
  have hparts : (all_members.partition (fun member => vac member.name)).2 ++
      (all_members.partition (fun member => vac member.name)).1 =
      all_members.filter (fun m => !(vac m.name)) ++
      all_members.filter (fun m => vac m.name) := by
    rw [List.partition_eq_filter_filter]
    rfl
  constructor
  · refine ⟨all_members, base, hf, ?_⟩
    rw [fill_and_tag_ids, hparts]
  · intro am2 a b hf2 hleft hnodup ha hb hva hvb hfa hfb
    have ham : am2 = all_members := by
      rw [hf] at hf2
      injection hf2 with h
      exact h.symm
    subst ham
    have hbase0 : base = [] := by
      rw [hleft] at hbase
      simpa using hbase
    subst hbase0
    rw [fill_and_tag_ids, hparts, List.filter_append, List.map_append, List.nil_append]
    set pred := fill_filter pr.created_by.id [] (pr.reviewers.map (fun v => v.id)) with hpred
    have hal1 : a ∈ (am2.filter (fun m => !(vac m.name))).filter pred := by
      rw [List.mem_filter, List.mem_filter]
      exact ⟨⟨ha, by rw [hva]; rfl⟩, hfa⟩
    have haid : a.id ∈ ((am2.filter (fun m => !(vac m.name))).filter pred).map
        (fun m => m.id) := List.mem_map_of_mem _ hal1
    have hbl2 : b ∈ (am2.filter (fun m => vac m.name)).filter pred := by
      rw [List.mem_filter, List.mem_filter]
      exact ⟨⟨hb, hvb⟩, hfb⟩
    have hbid : b.id ∉ ((am2.filter (fun m => !(vac m.name))).filter pred).map
        (fun m => m.id) := by
      intro hmem
      obtain ⟨m, hm, hmid⟩ := List.mem_map.mp hmem
      have hm2 := (List.mem_filter.mp (List.mem_filter.mp hm).1)
      have hmb : m = b := List.inj_on_of_nodup_map hnodup hm2.1 hb hmid
      rw [hmb] at hm2
      rw [hvb] at hm2
      exact absurd hm2.2 (by simp)
    rw [List.indexOf_append_of_mem haid, List.indexOf_append_of_not_mem hbid]
    have hlt := List.indexOf_lt_length.mpr haid
    omega

theorem claim_C7_witness :
    ((ex_vac_output.map (fun r => r.id)).indexOf "3" <
      (ex_vac_output.map (fun r => r.id)).indexOf "2") :=
  (claim_C7 ex_fetch ex_pull_request fake_shuffle_teams "AllMembers"
      { required_reviewers_count := 0, teams := ex_teams }
      (fun s => s == "2") ex_vac_output rfl).2
    (["1", "2", "3", "4", "5", "6", "7", "8", "9"].map ex_member)
    (ex_member "3") (ex_member "2")
    rfl rfl (by decide) (by decide) (by decide) (by decide) (by decide)
    (by decide) (by decide)

/-- C8 counterexample: with every roster empty, the computed new-reviewer
list is empty, yet `add_reviewers` still reaches the submission call and
invokes it with the empty list (`some []`), so the submission operation is
not withheld on an empty list. -/
theorem claim_C8_counterexample :
    add_reviewers ex_fetch_empty (.ok ex_pull_request) fake_shuffle_teams
      "AllMembers" ex_config (fun _ => false) = .ok (some []) := rfl

/-- C8 amended: on an active pull request with successful lookups,
`add_reviewers` always invokes the submission operation with the computed
list, whether or not that list is empty; an empty candidate pool is not an
error and yields an empty submission. -/
theorem claim_C8 {ε : Type} (fetch : Identifier → Except ε (List TeamMember))
    (pr : PullRequest) (sh : TeamMembersShuffler) (tn : String) (cfg : ReviewersConfig)
    (vac : String → Bool) (all_members : List TeamMember) (base : List Identifier)
    (hf : fetch tn = .ok all_members) (hact : pr.status = PullRequestStatus.Active)
    (hbase : if 0 < required_reviwers_left cfg pr then
               add_required_reviwers fetch sh cfg.teams [] pr.created_by.id
                 (can_be_added_pred pr.created_by.id
                   (pr.reviewers.map (fun v => v.id)) vac) = .ok base
             else base = []) :
    ∃ l, add_reviewers fetch (.ok pr) sh tn cfg vac = .ok (some l) :=
  ⟨fill_and_tag pr all_members cfg vac base,
    add_reviewers_run fetch pr all_members sh tn cfg vac base hf hact hbase⟩

theorem claim_C8_witness :
    ∃ l, add_reviewers ex_fetch_empty (.ok ex_pull_request) fake_shuffle_teams
      "AllMembers" ex_config (fun _ => false) = .ok (some l) :=
  claim_C8 ex_fetch_empty ex_pull_request fake_shuffle_teams "AllMembers"
    ex_config (fun _ => false) [] [] rfl rfl
    (by rw [if_pos (by decide)]; rfl)

theorem forall2_map_id {r1 r2 : List PullRequestReviewer}
    (h : List.Forall₂ (fun a b => a.id = b.id ∧ a.name = b.name ∧
      a.is_required = b.is_required ∧ a.vote = b.vote) r1 r2) :
    r1.map (fun v => v.id) = r2.map (fun v => v.id) := by
  induction h with
  | nil => rfl
  | cons h1 h2 ih => simp only [List.map_cons, h1.1, ih]

theorem forall2_required_length {r1 r2 : List PullRequestReviewer}
    (h : List.Forall₂ (fun a b => a.id = b.id ∧ a.name = b.name ∧
      a.is_required = b.is_required ∧ a.vote = b.vote) r1 r2) :
    (r1.filter (fun r => r.is_required)).length =
      (r2.filter (fun r => r.is_required)).length := by
  induction h with
  | nil => rfl
  | cons h1 h2 ih =>
    rename_i a b l1 l2
    rw [List.filter_cons, List.filter_cons, h1.2.2.1]
    cases hb : b.is_required <;> simp [ih]

/-- C10: `add_reviewers` never reads `has_declined`: runs against reviewer
lists equal except for that flag coincide, so a declined existing reviewer is
treated like any other — their identifier never reappears in the output and
their required flag still reduces the remaining budget. -/
theorem claim_C10 {ε : Type} (fetch : Identifier → Except ε (List TeamMember))
    (pr : PullRequest) (sh : TeamMembersShuffler) (tn : String) (cfg : ReviewersConfig)
    (vac : String → Bool) (rev2 : List PullRequestReviewer)
    (h : List.Forall₂ (fun a b => a.id = b.id ∧ a.name = b.name ∧
          a.is_required = b.is_required ∧ a.vote = b.vote) pr.reviewers rev2) :
    add_reviewers fetch (.ok pr) sh tn cfg vac =
      add_reviewers fetch (.ok { pr with reviewers := rev2 }) sh tn cfg vac ∧
    (∀ out v, add_reviewers fetch (.ok pr) sh tn cfg vac = .ok (some out) →
       v ∈ pr.reviewers → v.has_declined = true → ∀ r ∈ out, r.id ≠ v.id) := by
  have hmap := forall2_map_id h
  have hlen := forall2_required_length h
  have hleft : required_reviwers_left cfg pr =
      required_reviwers_left cfg { pr with reviewers := rev2 } := by
    unfold required_reviwers_left
    dsimp only
    rw [hlen]
  constructor
  · unfold add_reviewers
    cases hf : fetch tn with
    | error e => rfl
    | ok all_members =>
      dsimp only
      by_cases hst : PullRequestStatus.Active ≠ pr.status
      · rw [if_pos hst, if_pos hst]
      · rw [if_neg hst, if_neg hst]
        have hsame : (if 0 < required_reviwers_left cfg { pr with reviewers := rev2 } then
              add_required_reviwers fetch sh cfg.teams [] pr.created_by.id
                (can_be_added_pred pr.created_by.id (rev2.map (fun v => v.id)) vac)
            else .ok []) = (if 0 < required_reviwers_left cfg pr then
              add_required_reviwers fetch sh cfg.teams [] pr.created_by.id
                (can_be_added_pred pr.created_by.id
                  (pr.reviewers.map (fun v => v.id)) vac)
            else .ok []) := by
          rw [hleft, hmap]
        rw [hsame]
        have hft : ∀ b, fill_and_tag pr all_members cfg vac b =
            fill_and_tag { pr with reviewers := rev2 } all_members cfg vac b := by
          intro b
          unfold fill_and_tag
          dsimp only
          rw [hmap, hleft]
        cases h1 : (if 0 < required_reviwers_left cfg pr then
              add_required_reviwers fetch sh cfg.teams [] pr.created_by.id
                (can_be_added_pred pr.created_by.id
                  (pr.reviewers.map (fun v => v.id)) vac)
            else .ok []) with
        | error e => rfl
        | ok nr =>
          dsimp only
          rw [hft nr]
  · intro out v hrun hv hdecl r hr
    have hx := add_reviewers_mem_excludes fetch pr sh tn cfg vac out hrun r hr
    intro heq
    apply hx.2
    rw [heq]
    exact List.mem_map_of_mem (fun v => v.id) hv

theorem claim_C10_witness :
    add_reviewers ex_fetch (.ok ex_pr_declined) fake_shuffle_teams "AllMembers"
      ex_config (fun _ => false) =
    add_reviewers ex_fetch
      (.ok { ex_pr_declined with reviewers := [ex_undeclined_reviewer] })
      fake_shuffle_teams "AllMembers" ex_config (fun _ => false) :=
  (claim_C10 ex_fetch ex_pr_declined fake_shuffle_teams "AllMembers" ex_config
    (fun _ => false) [ex_undeclined_reviewer]
    (List.Forall₂.cons ⟨rfl, rfl, rfl, rfl⟩ List.Forall₂.nil)).1

theorem contains_eq_decide (l : List Identifier) (a : Identifier) :
    l.contains a = decide (a ∈ l) := by
  simp [List.contains, List.elem_eq_mem]

theorem add_required_reviwers_eq {ε : Type} (fetch : Identifier → Except ε (List TeamMember))
    (sh : TeamMembersShuffler) (teams : List AzureTeam) (rev : List Identifier)
    (author_id : Identifier) (p : TeamMember → Bool) (tm : List TeamMember)
    (team : Option AzureTeam) (rr : List TeamMember)
    (hfind : find_author_dev_team_members fetch teams author_id = .ok (tm, team))
    (hrr : match team.bind (fun t => t.required_reviewers_team) with
           | some n => fetch n = .ok rr
           | none => rr = []) :
    add_required_reviwers fetch sh teams rev author_id p =
      .ok (rev ++ (interleave ((sh tm rr).1.filter p)
        ((sh tm rr).2.filter (fun m =>
          p m && !(((sh tm rr).1.map (fun x => x.id)).contains m.id)))).map
        (fun m => m.id)) := by
  unfold add_required_reviwers
  rw [hfind]
  dsimp only
  cases hb : team.bind (fun t => t.required_reviewers_team) with
  | some n =>
    rw [hb] at hrr
    dsimp only at hrr ⊢
    rw [hrr]
  | none =>
    rw [hb] at hrr
    dsimp only at hrr
    subst hrr
    rfl

/-- C9: stability under saturation — re-running `add_reviewers` against the
same pull request after all reviewers proposed by the first run were added as
existing reviewers (with identifiers and required flags preserved) submits an
empty output list. -/
theorem claim_C9 {ε : Type} (fetch : Identifier → Except ε (List TeamMember))
    (pr : PullRequest) (sh1 sh2 : TeamMembersShuffler) (tn : String)
    (cfg : ReviewersConfig) (vac : String → Bool) (out : List NewPullRequestReviewer)
    (mk : NewPullRequestReviewer → PullRequestReviewer)
    (hmk : ∀ r, (mk r).id = r.id ∧ (mk r).is_required = r.is_required)
    (hsh1 : shuffler_permutes sh1) (hsh2 : shuffler_permutes sh2)
    (hrun1 : add_reviewers fetch (.ok pr) sh1 tn cfg vac = .ok (some out)) :
    add_reviewers fetch (.ok { pr with reviewers := pr.reviewers ++ out.map mk })
      sh2 tn cfg vac = .ok (some []) := by
  obtain ⟨hact, all_members, base1, hf, hbase1, hout⟩ :=
    add_reviewers_ok_some fetch pr sh1 tn cfg vac out hrun1
  have hexist2 : (pr.reviewers ++ out.map mk).map (fun v => v.id) =
      pr.reviewers.map (fun v => v.id) ++ out.map (fun r => r.id) := by
    rw [List.map_append, List.map_map]
    congr 1
    exact List.map_congr_left (fun r _ => (hmk r).1)
  have houtids : out.map (fun r => r.id) = base1 ++
      (((all_members.partition (fun member => vac member.name)).2 ++
        (all_members.partition (fun member => vac member.name)).1).filter
        (fill_filter pr.created_by.id base1 (pr.reviewers.map (fun v => v.id)))).map
        (fun member => member.id) := by
    rw [hout]
    exact fill_and_tag_ids pr all_members cfg vac base1
  have hcount : (pr.reviewers.filter (fun r => r.is_required)).length ≤
      ((pr.reviewers ++ out.map mk).filter (fun r => r.is_required)).length := by
    rw [List.filter_append, List.length_append]
    exact Nat.le_add_right _ _
  have hleft12 :
      required_reviwers_left cfg { pr with reviewers := pr.reviewers ++ out.map mk } ≤
      required_reviwers_left cfg pr := by
    unfold required_reviwers_left
    dsimp only
    omega
  have hbase1_sub : ∀ x ∈ base1, x ∈ out.map (fun r => r.id) := by
    intro x hx
    rw [houtids]
    exact List.mem_append_left _ hx
  have hfill1_sub : ∀ (m : TeamMember), m ∈ all_members →
      fill_filter pr.created_by.id base1 (pr.reviewers.map (fun v => v.id)) m = true →
      m.id ∈ out.map (fun r => r.id) := by
    intro m hm hp
    rw [houtids]
    refine List.mem_append_right _ ?_
    refine List.mem_map_of_mem _ ?_
    rw [List.mem_filter]
    exact ⟨mem_parts.mpr hm, hp⟩
  have hp21 : ∀ m : TeamMember,
      can_be_added_pred pr.created_by.id
        ((pr.reviewers ++ out.map mk).map (fun v => v.id)) vac m = true →
      can_be_added_pred pr.created_by.id
        (pr.reviewers.map (fun v => v.id)) vac m = true ∧
      m.id ∉ out.map (fun r => r.id) := by
    intro m hm
    rw [can_be_added_pred_iff] at hm
    obtain ⟨h1, h2, h3⟩ := hm
    rw [hexist2] at h2
    constructor
    · rw [can_be_added_pred_iff]
      exact ⟨h1, fun hmem => h2 (List.mem_append_left _ hmem), h3⟩
    · exact fun hmem => h2 (List.mem_append_right _ hmem)
  have hbase2 : if 0 < required_reviwers_left cfg
        { pr with reviewers := pr.reviewers ++ out.map mk } then
      add_required_reviwers fetch sh2 cfg.teams []
        ({ pr with reviewers := pr.reviewers ++ out.map mk } : PullRequest).created_by.id
        (can_be_added_pred
          ({ pr with reviewers := pr.reviewers ++ out.map mk } : PullRequest).created_by.id
          (({ pr with reviewers := pr.reviewers ++ out.map mk } : PullRequest).reviewers.map
            (fun v => v.id)) vac) = .ok ([] : List Identifier)
    else ([] : List Identifier) = [] := by
    by_cases hl2 : 0 < required_reviwers_left cfg
        { pr with reviewers := pr.reviewers ++ out.map mk }
    · rw [if_pos hl2]
      have hl1 : 0 < required_reviwers_left cfg pr := lt_of_lt_of_le hl2 hleft12
      rw [if_pos hl1] at hbase1
      obtain ⟨tm, team, rr, hfind, hrr, hbase1eq⟩ :=
        add_required_reviwers_ok fetch sh1 cfg.teams [] pr.created_by.id _ base1 hbase1
      have heq2 := add_required_reviwers_eq fetch sh2 cfg.teams [] pr.created_by.id
        (can_be_added_pred pr.created_by.id
          ((pr.reviewers ++ out.map mk).map (fun v => v.id)) vac)
        tm team rr hfind hrr
      have hfe1 : (sh2 tm rr).1.filter
          (can_be_added_pred pr.created_by.id
            ((pr.reviewers ++ out.map mk).map (fun v => v.id)) vac) = [] := by
        rw [List.filter_eq_nil_iff]
        intro m hm hp
        obtain ⟨hp1, hnout⟩ := hp21 m hp
        apply hnout
        apply hbase1_sub
        rw [hbase1eq]
        simp only [List.nil_append, List.mem_map]
        refine ⟨m, ?_, rfl⟩
        rw [mem_interleave]
        left
        rw [List.mem_filter]
        exact ⟨((hsh1 tm rr).1.mem_iff).mpr (((hsh2 tm rr).1.mem_iff).mp hm), hp1⟩
      have hfe2 : (sh2 tm rr).2.filter (fun m =>
          can_be_added_pred pr.created_by.id
            ((pr.reviewers ++ out.map mk).map (fun v => v.id)) vac m &&
          !(((sh2 tm rr).1.map (fun x => x.id)).contains m.id)) = [] := by
        rw [List.filter_eq_nil_iff]
        intro m hm hq
        simp only [Bool.and_eq_true, Bool.not_eq_true'] at hq
        obtain ⟨hp, hcont⟩ := hq
        obtain ⟨hp1, hnout⟩ := hp21 m hp
        apply hnout
        apply hbase1_sub
        rw [hbase1eq]
        simp only [List.nil_append, List.mem_map]
        refine ⟨m, ?_, rfl⟩
        rw [mem_interleave]
        right
        rw [List.mem_filter]
        constructor
        · exact ((hsh1 tm rr).2.mem_iff).mpr (((hsh2 tm rr).2.mem_iff).mp hm)
        · rw [Bool.and_eq_true]
          refine ⟨hp1, ?_⟩
          rw [Bool.not_eq_true']
          rw [contains_eq_decide] at hcont ⊢
          simp only [decide_eq_false_iff_not] at hcont ⊢
          intro hmem
          apply hcont
          have h1 : m.id ∈ tm.map (fun x => x.id) :=
            (((hsh1 tm rr).1.map (fun x => x.id)).mem_iff).mp hmem
          exact (((hsh2 tm rr).1.map (fun x => x.id)).mem_iff).mpr h1
      dsimp only
      rw [heq2, hfe1, hfe2]
      rfl
    · rw [if_neg hl2]
  have hrun2 := add_reviewers_run fetch
    { pr with reviewers := pr.reviewers ++ out.map mk } all_members sh2 tn cfg vac []
    hf hact hbase2
  rw [hrun2]
  have hft0 : fill_and_tag { pr with reviewers := pr.reviewers ++ out.map mk }
      all_members cfg vac [] = [] := by
    unfold fill_and_tag
    dsimp only
    have hfillnil : ((all_members.partition (fun member => vac member.name)).2 ++
        (all_members.partition (fun member => vac member.name)).1).filter
        (fill_filter pr.created_by.id []
          ((pr.reviewers ++ out.map mk).map (fun v => v.id))) = [] := by
      rw [List.filter_eq_nil_iff]
      intro m hm hp
      have hmall : m ∈ all_members := mem_parts.mp hm
      rw [fill_filter_iff] at hp
      obtain ⟨hne, hnil, hnex⟩ := hp
      rw [hexist2] at hnex
      by_cases hmb : m.id ∈ base1
      · exact hnex (List.mem_append_right _ (hbase1_sub _ hmb))
      · have hp1 : fill_filter pr.created_by.id base1
            (pr.reviewers.map (fun v => v.id)) m = true := by
          rw [fill_filter_iff]
          exact ⟨hne, hmb, fun hmem => hnex (List.mem_append_left _ hmem)⟩
        exact hnex (List.mem_append_right _ (hfill1_sub m hmall hp1))
    rw [hfillnil]
    rfl
  rw [hft0]

theorem claim_C9_witness :
    add_reviewers ex_fetch
      (.ok { ex_pull_request with
        reviewers := ex_pull_request.reviewers ++ ex_output.map ex_mk })
      fake_shuffle_teams "AllMembers" ex_config (fun _ => false) = .ok (some []) :=
  claim_C9 ex_fetch ex_pull_request fake_shuffle_teams fake_shuffle_teams "AllMembers"
    ex_config (fun _ => false) ex_output ex_mk (fun _ => ⟨rfl, rfl⟩)
    (fun a b => ⟨List.Perm.refl a, List.Perm.refl b⟩)
    (fun a b => ⟨List.Perm.refl a, List.Perm.refl b⟩) rfl

end Reviewporter
